import Mathlib

/-!
Verification of the pipeline core of the text-transform application
(`cyberchef_streamlist`): the step/group/library data model, the transform
engine (`executePipeline`), the scope resolver (`resolveScopeSteps`), the
entity-store operations, and the persisted-state load/save contract.
Definitions are shallow embeddings of the TypeScript source; dynamic
JavaScript evaluation of a step's `code` is abstracted as an evaluator
parameter, as only its contract (may throw, result coerced by
`String(result ?? '')`) is observed by the core.
-/

namespace CSL

/-- Model of `Step` from `src/app/src/types.ts`: a single transform unit.
Timestamps are `Date.now()` milliseconds, modelled as `Nat`. -/
structure Step where
  id : String
  title : String
  code : String
  muted : Bool
  createdAt : Nat
  updatedAt : Nat
deriving Repr, DecidableEq

/-- Model of `StepGroup` from `types.ts`.  The live code also reads and
writes an optional `inputText` field on groups (`updateGroupInputText` in
`useStepGroups.ts`, the `inputText` defaulting in `storage.ts`), modelled
here as `Option String` (`none` = JS `undefined` / absent key). -/
structure StepGroup where
  id : String
  title : String
  steps : List Step
  inputText : Option String
  createdAt : Nat
  updatedAt : Nat
deriving Repr, DecidableEq

/-- Model of `LibraryStep` from `types.ts`: a reusable step template
(structurally a `Step` minus the `muted` flag). -/
structure LibraryStep where
  id : String
  title : String
  code : String
  createdAt : Nat
  updatedAt : Nat
deriving Repr, DecidableEq

/-- Model of `RunScope = 'all' | 'from' | 'to'` from `types.ts`. -/
inductive RunScope where
  | all
  | fromScope
  | toScope
deriving Repr, DecidableEq

/-- A JavaScript value returned by a step function, as far as the engine's
coercion `String(result ?? '')` observes it: the two nullish values are
distinguished, and any non-nullish value is carried together with its
`String(·)` representation. -/
inductive JSValue where
  | undefinedV
  | nullV
  | value (s : String)
deriving Repr, DecidableEq

/-- JavaScript `String(·)` on the observed values. -/
def jsString : JSValue → String
  | .undefinedV => "undefined"
  | .nullV => "null"
  | .value s => s

/-- JavaScript nullish coalescing `x ?? y`. -/
def nullishCoalesce (x y : JSValue) : JSValue :=
  match x with
  | .undefinedV => y
  | .nullV => y
  | .value s => .value s

/-- The engine's result coercion `String(result ?? '')` from
`executePipeline` (`usePipeline` in `hooks/`, identically in `App.tsx`). -/
def coerceResult (result : JSValue) : String :=
  jsString (nullishCoalesce result (.value ""))

/-- Outcome of evaluating one step's compiled function on the running
value: a returned JS value, or a thrown error already rendered through
`getErrorMessage` (`helpers.ts`). -/
inductive EvalOutcome where
  | ok (v : JSValue)
  | err (msg : String)
deriving Repr, DecidableEq

/-- An abstract step evaluator: `new Function('input', 'helpers', step.code)`
applied to the running value.  The core is agnostic to how evaluation is
performed, only to this contract. -/
abbrev StepEval := Step → String → EvalOutcome

/-- Result record of `executePipeline`: `{ output, errors, failedStep }`.
The `errors` record is an association list from step id to message. -/
structure ExecResult where
  output : String
  errors : List (String × String)
  failedStep : Option Step
deriving Repr, DecidableEq

/-- The transform-engine loop of `executePipeline` (`usePipeline` in
`hooks/`, lines 76-98; identically `App.tsx` lines 398-420), applied to an
already-resolved ordered step list: skip muted steps, otherwise evaluate
the step's code on the running value, coerce the result with
`String(result ?? '')`, and on a thrown error halt at once, reporting the
running value, one error entry, and the failing step. -/
def executePipeline (evalFn : StepEval) : List Step → String → ExecResult
  | [], current => { output := current, errors := [], failedStep := none }
  | step :: rest, current =>
    if step.muted then
      executePipeline evalFn rest current
    else
      match evalFn step current with
      | .ok result => executePipeline evalFn rest (coerceResult result)
      | .err msg =>
        { output := current, errors := [(step.id, msg)], failedStep := some step }

/-- Sequential evaluation of a step list that records only the running
value, returning `none` as soon as a non-muted step's evaluation throws.
`runOk evalFn steps input = some v` states that no non-muted step of
`steps` fails when run from `input`, producing final value `v`. -/
def runOk (evalFn : StepEval) : List Step → String → Option String
  | [], current => some current
  | step :: rest, current =>
    if step.muted then runOk evalFn rest current
    else
      match evalFn step current with
      | .ok result => runOk evalFn rest (coerceResult result)
      | .err _ => none

/-- The transform function a single step denotes (total; on a throwing
step it keeps the running value, a branch never reached under a
no-failure hypothesis). -/
def stepTransform (evalFn : StepEval) (current : String) (step : Step) : String :=
  match evalFn step current with
  | .ok result => coerceResult result
  | .err _ => current

/-- Model of `resolveScopeSteps` from `usePipeline` (`hooks/`, lines
63-74): `'all'` returns the list; otherwise a falsy anchor (`null` or the
empty string, via `if (!anchor)`) or an anchor id not found in the list
falls back to the whole list; a found anchor yields `slice(anchorIndex)`
for `'from'` and `slice(0, anchorIndex + 1)` for `'to'`. -/
def resolveScopeSteps (scope : RunScope) (anchorId : Option String)
    (activeSteps : List Step) : List Step :=
  if scope = .all then activeSteps
  else
    match anchorId with
    | none => activeSteps
    | some anchor =>
      if anchor = "" then activeSteps
      else
        match activeSteps.findIdx? (fun step => step.id == anchor) with
        | none => activeSteps
        | some anchorIndex =>
          if scope = .fromScope then activeSteps.drop anchorIndex
          else activeSteps.take (anchorIndex + 1)

/-- Shared body of `moveStep` (`useSteps.ts`, lines 172-183) and
`moveLibraryStep` (`useLibrary.ts`, lines 40-50), which duplicate it
verbatim: copy the list; if either index is negative or `≥ length`,
return the unchanged copy; otherwise `splice` the element out at
`fromIndex` and `splice` it back in at `toIndex`.  Indices are JS numbers
coming from drag positions, modelled as `Int` so that negative values are
representable. -/
def moveItem {α : Type} (xs : List α) (fromIndex toIndex : Int) : List α :=
  if fromIndex < 0 ∨ fromIndex ≥ (xs.length : Int) ∨
      toIndex < 0 ∨ toIndex ≥ (xs.length : Int) then
    xs
  else
    match xs[fromIndex.toNat]? with
    | none => xs
    | some moved => (xs.eraseIdx fromIndex.toNat).insertIdx toIndex.toNat moved

/-- Model of `moveStep(fromIndex, toIndex)` at the level of the owning step list. -/
def moveStep (steps : List Step) (fromIndex toIndex : Int) : List Step :=
  moveItem steps fromIndex toIndex

/-- Model of `moveLibraryStep(fromIndex, toIndex)` at the level of the library list. -/
def moveLibraryStep (librarySteps : List LibraryStep) (fromIndex toIndex : Int) :
    List LibraryStep :=
  moveItem librarySteps fromIndex toIndex

/-- Constant `DEFAULT_CODE` from `utils/constants.ts`. -/
def DEFAULT_CODE : String := "return input"

/-- Model of `createStep` from `utils/factories.ts`.  `crypto.randomUUID()` and
`Date.now()` are environment inputs, passed explicitly. -/
def createStep (index : Nat) (newId : String) (now : Nat) : Step :=
  { id := newId, title := "title " ++ toString index, code := DEFAULT_CODE,
    muted := false, createdAt := now, updatedAt := now }

/-- Model of `createGroup` from `utils/factories.ts` (note: it sets no `inputText`
key, so a fresh group has `inputText = none`). -/
def createGroup (index : Nat) (newId : String) (now : Nat) : StepGroup :=
  { id := newId, title := "Group " ++ toString index, steps := [],
    inputText := none, createdAt := now, updatedAt := now }

/-- Model of `createLibraryStep` from `utils/factories.ts`: with a seed step it
copies the seed's title and code, otherwise defaults. -/
def createLibraryStep (index : Nat) (seed : Option Step) (newId : String)
    (now : Nat) : LibraryStep :=
  { id := newId,
    title := match seed with | some s => s.title | none => "Library Step " ++ toString index,
    code := match seed with | some s => s.code | none => DEFAULT_CODE,
    createdAt := now, updatedAt := now }

/-- Model of `saveStepToLibrary` from `App.tsx` (lines 357-361): the target is the
argument if given, else the currently selected step (`stepToSave ??
selectedStep`); with no target it is a no-op, otherwise a new library
step copying the target's title and code is appended. -/
def saveStepToLibrary (stepToSave selectedStep : Option Step)
    (librarySteps : List LibraryStep) (newId : String) (now : Nat) :
    List LibraryStep :=
  match stepToSave.orElse (fun _ => selectedStep) with
  | none => librarySteps
  | some target =>
    librarySteps ++ [createLibraryStep (librarySteps.length + 1) (some target) newId now]

/-- Model of `deleteLibraryStep` from `useLibrary.ts` (lines 33-38): the library
keeps only the steps whose id differs, and the library selection is
cleared when it pointed at the deleted id.  Returns the new
`(librarySteps, selectedLibraryStepId)` pair. -/
def deleteLibraryStep (id : String) (librarySteps : List LibraryStep)
    (selectedLibraryStepId : Option String) :
    List LibraryStep × Option String :=
  (librarySteps.filter (fun step => step.id != id),
   if selectedLibraryStepId = some id then none else selectedLibraryStepId)

/-- Model of `StoredState` from `types.ts` / the persisted envelope of the spec's
storage contract. -/
structure StoredState where
  version : Int
  stepGroups : List StepGroup
  selectedGroupId : Option String
  selectedStepId : Option String
  librarySteps : List LibraryStep
deriving Repr, DecidableEq

/-- The fields `loadStoredState` inspects on a JSON-parsed payload that is
an object.  `version = none` models an absent or non-number `version` key
(which compares unequal to `1` under `!==`), `stepGroups`/`librarySteps`
`none` model values that fail `Array.isArray`, and the selections are
`?? null`-normalised. -/
structure RawStored where
  version : Option Int
  stepGroups : Option (List StepGroup)
  selectedGroupId : Option String
  selectedStepId : Option String
  librarySteps : Option (List LibraryStep)
deriving Repr, DecidableEq

/-- Outcome of `JSON.parse` on a stored payload: a falsy value (`null`
etc., failing the `!parsed` check) or an object with the inspected
fields. -/
inductive ParsedPayload where
  | falsy
  | obj (fields : RawStored)
deriving Repr, DecidableEq

/-- Constant `STORAGE_VERSION` from `utils/constants.ts`. -/
def STORAGE_VERSION : Int := 1

/-- The canonical empty stored state returned by `loadStoredState` on any
absent, unparsable, falsy or version-mismatched payload. -/
def emptyStoredState : StoredState :=
  { version := STORAGE_VERSION, stepGroups := [], selectedGroupId := none,
    selectedStepId := none, librarySteps := [] }

/-- Model of `loadStoredState` from `utils/storage.ts` (lines 4-47).  The argument
is the parsed stored payload: `none` models an absent raw string or a
`JSON.parse`/`localStorage` exception (the `catch` branch).  A falsy
parse or `version !== 1` yields the empty state; otherwise non-array
`stepGroups`/`librarySteps` are coerced to `[]`, each group's `inputText`
is defaulted via `inputText ?? ''`, and the selections via `?? null`. -/
def loadStoredState : Option ParsedPayload → StoredState
  | none => emptyStoredState
  | some .falsy => emptyStoredState
  | some (.obj parsed) =>
    if parsed.version ≠ some STORAGE_VERSION then emptyStoredState
    else
      { version := STORAGE_VERSION,
        stepGroups :=
          match parsed.stepGroups with
          | some groups =>
            groups.map (fun group => { group with inputText := some (group.inputText.getD "") })
          | none => [],
        selectedGroupId := parsed.selectedGroupId,
        selectedStepId := parsed.selectedStepId,
        librarySteps :=
          match parsed.librarySteps with
          | some steps => steps
          | none => [] }

/-- The save effect of `App.tsx` (`JSON.stringify` of
`{version: STORAGE_VERSION, stepGroups, selectedGroupId, selectedStepId,
librarySteps}` written to `localStorage`), composed with a later
`JSON.parse`: serialisation is faithful on these field types, with an
absent optional `inputText` staying absent. -/
def saveStoredState (state : StoredState) : ParsedPayload :=
  .obj { version := some state.version,
         stepGroups := some state.stepGroups,
         selectedGroupId := state.selectedGroupId,
         selectedStepId := state.selectedStepId,
         librarySteps := some state.librarySteps }

/-- The fields of `Partial<Step>` that the application's callers of
`updateStep` actually pass (`{title}`, `{code}`, `{muted}` from the step
editor and the mute toggle); a `none` field is left unchanged by the JS
spread `{...step, ...updates}`. -/
structure StepUpdates where
  title : Option String
  code : Option String
  muted : Option Bool
deriving Repr, DecidableEq

/-- The spread `{ ...step, ...updates, updatedAt: Date.now() }` of
`updateStep` (`useSteps.ts`, lines 139-145) applied to one step. -/
def applyStepUpdates (updates : StepUpdates) (now : Nat) (step : Step) : Step :=
  { step with
    title := updates.title.getD step.title,
    code := updates.code.getD step.code,
    muted := updates.muted.getD step.muted,
    updatedAt := now }

/-- The fields of `Partial<LibraryStep>` that callers of
`updateLibraryStep` actually pass (`{title}`, `{code}`). -/
structure LibraryStepUpdates where
  title : Option String
  code : Option String
deriving Repr, DecidableEq

/-- The spread `{ ...step, ...updates, updatedAt: Date.now() }` of
`updateLibraryStep` (`useLibrary.ts`, lines 25-31) applied to one step. -/
def applyLibraryStepUpdates (updates : LibraryStepUpdates) (now : Nat)
    (step : LibraryStep) : LibraryStep :=
  { step with
    title := updates.title.getD step.title,
    code := updates.code.getD step.code,
    updatedAt := now }

/-- The entity store's canonical collections and selections, as held by
the `useStepGroups`/`useSteps`/`useLibrary` hooks. -/
structure AppState where
  stepGroups : List StepGroup
  selectedGroupId : Option String
  selectedStepId : Option String
  librarySteps : List LibraryStep
  selectedLibraryStepId : Option String
deriving Repr, DecidableEq

/-- Model of `updateActiveSteps` from `useSteps.ts` (lines 116-128): a no-op when
no group matches the selection, otherwise it rewrites the matching
group's step list through `updater` and stamps `updatedAt = Date.now()`
on that group. -/
def updateActiveSteps (state : AppState) (now : Nat)
    (updater : List Step → List Step) : AppState :=
  match state.stepGroups.find? (fun group => some group.id == state.selectedGroupId) with
  | none => state
  | some activeGroup =>
    { state with
      stepGroups := state.stepGroups.map (fun group =>
        if group.id == activeGroup.id then
          { group with steps := updater group.steps, updatedAt := now }
        else group) }

/-- The active group's step list (`activeGroup?.steps ?? []`). -/
def activeStepsOf (state : AppState) : List Step :=
  match state.stepGroups.find? (fun group => some group.id == state.selectedGroupId) with
  | none => []
  | some activeGroup => activeGroup.steps

/-- The mutating entity-store operations, one constructor per public
operation of the hooks.  Fresh uuids are operation inputs. -/
inductive StoreOp where
  | addGroup (newId : String)
  | updateGroupTitle (id : String) (title : String)
  | updateGroupInputText (id : String) (text : String)
  | deleteGroup (id : String)
  | addStep (newId : String)
  | updateStep (id : String) (updates : StepUpdates)
  | deleteStep (id : String)
  | moveStepOp (fromIndex toIndex : Int)
  | addLibraryStep (newId : String)
  | updateLibraryStep (id : String) (updates : LibraryStepUpdates)
  | deleteLibraryStepOp (id : String)
  | moveLibraryStepOp (fromIndex toIndex : Int)
  | saveStepToLibraryOp (stepToSave : Option Step) (newId : String)
  | addStepFromLibrary (libStep : LibraryStep) (atIndex : Option Nat) (newId : String)
deriving Repr, DecidableEq

/-- One entity-store operation applied at clock reading `now`
(`Date.now()`), following the hook implementations
(`useStepGroups.ts`, `useSteps.ts`, `useLibrary.ts`). -/
def applyOp (now : Nat) : StoreOp → AppState → AppState
  | .addGroup newId, state =>
    { state with
      stepGroups := state.stepGroups ++ [createGroup (state.stepGroups.length + 1) newId now],
      selectedGroupId := some newId }
  | .updateGroupTitle id title, state =>
    { state with
      stepGroups := state.stepGroups.map (fun group =>
        if group.id == id then { group with title := title, updatedAt := now } else group) }
  | .updateGroupInputText id text, state =>
    { state with
      stepGroups := state.stepGroups.map (fun group =>
        if group.id == id then { group with inputText := some text, updatedAt := now } else group) }
  | .deleteGroup id, state =>
    let next := state.stepGroups.filter (fun group => group.id != id)
    { state with
      stepGroups := next,
      selectedGroupId :=
        if state.selectedGroupId = some id then next.head?.map StepGroup.id
        else state.selectedGroupId }
  | .addStep newId, state =>
    match state.stepGroups.find? (fun group => some group.id == state.selectedGroupId) with
    | none => state
    | some _ =>
      { updateActiveSteps state now
          (fun prev => prev ++ [createStep (prev.length + 1) newId now]) with
        selectedStepId := some newId }
  | .updateStep id updates, state =>
    updateActiveSteps state now (fun prev =>
      prev.map (fun step => if step.id == id then applyStepUpdates updates now step else step))
  | .deleteStep id, state =>
    let next := (activeStepsOf state).filter (fun step => step.id != id)
    { updateActiveSteps state now (fun prev => prev.filter (fun step => step.id != id)) with
      selectedStepId :=
        if state.selectedStepId = some id then next.head?.map Step.id
        else state.selectedStepId }
  | .moveStepOp fromIndex toIndex, state =>
    updateActiveSteps state now (fun prev => moveStep prev fromIndex toIndex)
  | .addLibraryStep newId, state =>
    { state with
      librarySteps :=
        state.librarySteps ++ [createLibraryStep (state.librarySteps.length + 1) none newId now] }
  | .updateLibraryStep id updates, state =>
    { state with
      librarySteps := state.librarySteps.map (fun step =>
        if step.id == id then applyLibraryStepUpdates updates now step else step) }
  | .deleteLibraryStepOp id, state =>
    let next := deleteLibraryStep id state.librarySteps state.selectedLibraryStepId
    { state with librarySteps := next.1, selectedLibraryStepId := next.2 }
  | .moveLibraryStepOp fromIndex toIndex, state =>
    { state with librarySteps := moveLibraryStep state.librarySteps fromIndex toIndex }
  | .saveStepToLibraryOp stepToSave newId, state =>
    match stepToSave with
    | none => state
    | some step =>
      let target := ((activeStepsOf state).find? (fun s => s.id == step.id)).getD step
      { state with
        librarySteps :=
          state.librarySteps ++
            [createLibraryStep (state.librarySteps.length + 1) (some target) newId now] }
  | .addStepFromLibrary libStep atIndex newId, state =>
    let newStep : Step :=
      { id := newId, title := libStep.title, code := libStep.code, muted := false,
        createdAt := now, updatedAt := now }
    match state.stepGroups.find? (fun group => some group.id == state.selectedGroupId) with
    | none => state
    | some _ =>
      { updateActiveSteps state now (fun prev =>
          match atIndex with
          | some index => prev.insertIdx (min index prev.length) newStep
          | none => prev ++ [newStep]) with
        selectedStepId := some newId }

/-- Run a list of timestamped operations in order. -/
def runOps : List (Nat × StoreOp) → AppState → AppState
  | [], state => state
  | (t, op) :: rest, state => runOps rest (applyOp t op state)

/-- The clock readings of an operation list are non-decreasing and start
no earlier than `t0` (`Date.now()` is monotone within a session). -/
def timesMono : Nat → List (Nat × StoreOp) → Prop
  | _, [] => True
  | t0, (t, _) :: rest => t0 ≤ t ∧ timesMono t rest

/-- The clock reading after the last operation. -/
def endTime (t0 : Nat) : List (Nat × StoreOp) → Nat
  | [] => t0
  | (t, _) :: rest => endTime t rest

instance instDecidableTimesMono :
    (t0 : Nat) → (ops : List (Nat × StoreOp)) → Decidable (timesMono t0 ops)
  | _, [] => isTrue trivial
  | t0, (t, _) :: rest =>
    haveI := instDecidableTimesMono t rest
    inferInstanceAs (Decidable (t0 ≤ t ∧ timesMono t rest))

/-- A step's timestamps are well-stamped at clock `t`:
`createdAt ≤ updatedAt ≤ t`. -/
def stepStamped (t : Nat) (step : Step) : Prop :=
  step.createdAt ≤ step.updatedAt ∧ step.updatedAt ≤ t

/-- A group and all its steps are well-stamped at clock `t`. -/
def groupStamped (t : Nat) (group : StepGroup) : Prop :=
  group.createdAt ≤ group.updatedAt ∧ group.updatedAt ≤ t ∧
    ∀ step ∈ group.steps, stepStamped t step

/-- A library step's timestamps are well-stamped at clock `t`. -/
def libraryStepStamped (t : Nat) (step : LibraryStep) : Prop :=
  step.createdAt ≤ step.updatedAt ∧ step.updatedAt ≤ t

/-- Every entity of the store is well-stamped at clock `t`. -/
def stateStamped (t : Nat) (state : AppState) : Prop :=
  (∀ group ∈ state.stepGroups, groupStamped t group) ∧
    ∀ step ∈ state.librarySteps, libraryStepStamped t step

instance (t : Nat) (step : Step) : Decidable (stepStamped t step) := by
  unfold stepStamped; infer_instance

instance (t : Nat) (group : StepGroup) : Decidable (groupStamped t group) := by
  unfold groupStamped stepStamped; infer_instance

instance (t : Nat) (step : LibraryStep) : Decidable (libraryStepStamped t step) := by
  unfold libraryStepStamped; infer_instance

instance (t : Nat) (state : AppState) : Decidable (stateStamped t state) := by
  unfold stateStamped; infer_instance

/-- Concrete sample step (non-muted, succeeds under `sampleEval`). -/
def csA : Step :=
  { id := "a", title := "append bang", code := "return input + \x22!\x22",
    muted := false, createdAt := 0, updatedAt := 0 }

/-- Concrete sample step whose evaluation throws under `sampleEval`. -/
def csFail : Step :=
  { id := "fail", title := "boom", code := "throw new Error(\x22bad\x22)",
    muted := false, createdAt := 0, updatedAt := 0 }

/-- Concrete sample step placed after the failing one. -/
def csB : Step :=
  { id := "b", title := "after", code := "return input",
    muted := false, createdAt := 0, updatedAt := 0 }

/-- Concrete muted sample step. -/
def csMuted : Step :=
  { id := "m", title := "muted", code := "return input + \x22?\x22",
    muted := true, createdAt := 0, updatedAt := 0 }

/-- Concrete sample step returning `null` under `sampleEval`. -/
def csNull : Step :=
  { id := "nul", title := "null step", code := "return null",
    muted := false, createdAt := 0, updatedAt := 0 }

/-- A concrete evaluator used to instantiate the engine theorems: steps
with id `fail` throw `bad`, id `nul` returns `null`, id `und` returns
`undefined`, anything else returns the running value with `!` appended. -/
def sampleEval : StepEval := fun step input =>
  if step.id == "fail" then .err "bad"
  else if step.id == "nul" then .ok .nullV
  else if step.id == "und" then .ok .undefinedV
  else .ok (.value (input ++ "!"))

/-- Concrete step with the empty string as id, exercising the falsy
anchor check `if (!anchor)` of `resolveScopeSteps`. -/
def cexStepEmptyId : Step :=
  { id := "", title := "empty id", code := "return input",
    muted := false, createdAt := 0, updatedAt := 0 }

/-- Concrete two-step list whose second step has the empty id. -/
def cexScopeList : List Step := [csA, cexStepEmptyId]

/-- Concrete group with no `inputText` key, exactly as `createGroup`
mints it. -/
def cexGroupNoInput : StepGroup :=
  { id := "g1", title := "Group 1", steps := [csA], inputText := none,
    createdAt := 0, updatedAt := 0 }

/-- Concrete stored state containing a group without `inputText`. -/
def cexStateNoInput : StoredState :=
  { version := STORAGE_VERSION, stepGroups := [cexGroupNoInput],
    selectedGroupId := some "g1", selectedStepId := none, librarySteps := [] }

/-- Concrete group whose `inputText` is present. -/
def csGroupWithInput : StepGroup :=
  { id := "g2", title := "Group 2", steps := [csA, csMuted], inputText := some "hello",
    createdAt := 3, updatedAt := 7 }

/-- Concrete stored state whose groups all carry an `inputText`. -/
def csStateWithInput : StoredState :=
  { version := STORAGE_VERSION, stepGroups := [csGroupWithInput],
    selectedGroupId := some "g2", selectedStepId := some "a",
    librarySteps := [{ id := "L1", title := "lib", code := "return input",
                       createdAt := 1, updatedAt := 2 }] }

/-- The entity store before any operation ran. -/
def emptyAppState : AppState :=
  { stepGroups := [], selectedGroupId := none, selectedStepId := none,
    librarySteps := [], selectedLibraryStepId := none }

/-- A concrete timestamped operation sequence exercising group, step and
library mutations. -/
def csOps : List (Nat × StoreOp) :=
  [(1, .addGroup "g"),
   (2, .addStep "s"),
   (3, .updateStep "s" { title := some "Upper", code := none, muted := some true }),
   (4, .addLibraryStep "L"),
   (5, .saveStepToLibraryOp (some (createStep 1 "s" 2)) "L2"),
   (6, .moveLibraryStepOp 0 1),
   (7, .updateGroupInputText "g" "hello"),
   (8, .deleteLibraryStepOp "L")]

end CSL

namespace CSL

/-- If no non-muted step of `steps` fails when run from `input`, the final
running value is the left-fold of the step transforms over the non-muted
steps in order. -/
theorem runOk_eq_foldl (evalFn : StepEval) (steps : List Step) :
    ∀ (input v : String), runOk evalFn steps input = some v →
      v = (steps.filter (fun step => !step.muted)).foldl (stepTransform evalFn) input := by
  induction steps with
  | nil => intro input v h; simp [runOk] at h; simp [h]
  | cons step rest ih =>
    intro input v h
    by_cases hm : step.muted
    · simp only [runOk, if_pos hm] at h
      simpa [List.filter_cons, hm] using ih input v h
    · cases heval : evalFn step input with
      | ok r =>
        simp only [runOk, if_neg hm, heval] at h
        simpa [List.filter_cons, hm, stepTransform, heval] using ih (coerceResult r) v h
      | err m =>
        simp [runOk, if_neg hm, heval] at h

/-- A fully successful prefix can be peeled off the engine loop: running
`pre ++ rest` from `input` equals running `rest` from the value `pre`
produces. -/
theorem executePipeline_append_of_runOk (evalFn : StepEval) (pre : List Step) :
    ∀ (rest : List Step) (input v : String), runOk evalFn pre input = some v →
      executePipeline evalFn (pre ++ rest) input = executePipeline evalFn rest v := by
  induction pre with
  | nil => intro rest input v h; simp [runOk] at h; simp [h]
  | cons step tail ih =>
    intro rest input v h
    by_cases hm : step.muted
    · simp only [runOk, if_pos hm] at h
      simpa [executePipeline, hm] using ih rest input v h
    · cases heval : evalFn step input with
      | ok r =>
        simp only [runOk, if_neg hm, heval] at h
        simpa [executePipeline, hm, heval] using ih rest (coerceResult r) v h
      | err m =>
        simp [runOk, if_neg hm, heval] at h

/-- C1: if the first `k-1` non-muted steps before `failing` all succeed
(producing running value `v`) and evaluating the non-muted step `failing`
throws `msg`, then `executePipeline` halts immediately: the output is the
running value just before the failing step (the fold of the earlier
non-muted transforms, i.e. the original input when no earlier non-muted
step ran), the error map is exactly one entry keyed by the failing step's
id, `failedStep` is the failing step, and no later step is evaluated (the
result does not depend on the steps after the failing one). -/
theorem executePipeline_halts_on_first_error
    (evalFn : StepEval) (pre post : List Step) (failing : Step)
    (input v msg : String)
    (hpre : runOk evalFn pre input = some v)
    (hmut : failing.muted = false)
    (herr : evalFn failing v = .err msg) :
    executePipeline evalFn (pre ++ failing :: post) input =
      { output := v, errors := [(failing.id, msg)], failedStep := some failing } ∧
    v = (pre.filter (fun step => !step.muted)).foldl (stepTransform evalFn) input ∧
    ((∀ step ∈ pre, step.muted = true) → v = input) ∧
    executePipeline evalFn (pre ++ failing :: post) input =
      executePipeline evalFn (pre ++ [failing]) input := by
  have happ := executePipeline_append_of_runOk evalFn pre (failing :: post) input v hpre
  have happ1 := executePipeline_append_of_runOk evalFn pre [failing] input v hpre
  have hhalt : executePipeline evalFn (failing :: post) v =
      { output := v, errors := [(failing.id, msg)], failedStep := some failing } := by
    simp [executePipeline, hmut, herr]
  have hfold := runOk_eq_foldl evalFn pre input v hpre
  refine ⟨happ.trans hhalt, hfold, ?_, ?_⟩
  · intro hall
    have hnil : pre.filter (fun step => !step.muted) = [] := by
      simp only [List.filter_eq_nil_iff]
      intro step hstep
      simp [hall step hstep]
    rw [hfold, hnil]
    rfl
  · rw [happ, happ1, hhalt]
    simp [executePipeline, hmut, herr]

/-- Witness for C1 at a concrete pipeline: one successful step, then a
throwing step, then a never-reached step. -/
theorem executePipeline_halts_on_first_error_witness :
    executePipeline sampleEval (csA :: csFail :: [csB]) "hello" =
      { output := "hello!", errors := [("fail", "bad")], failedStep := some csFail } :=
  (executePipeline_halts_on_first_error sampleEval [csA] [csB] csFail
    "hello" "hello!" "bad" (by decide) (by decide) (by decide)).1

/-- C2: if no non-muted step fails, `executePipeline` returns the
left-fold of the non-muted steps' transforms over the input text, in
order, with an empty error map and no failed step; muted steps are
excluded from the fold, and an empty step list returns the input text
unchanged with no errors. -/
theorem executePipeline_success_is_fold
    (evalFn : StepEval) (steps : List Step) (input v : String)
    (h : runOk evalFn steps input = some v) :
    executePipeline evalFn steps input =
      { output := (steps.filter (fun step => !step.muted)).foldl (stepTransform evalFn) input,
        errors := [], failedStep := none } ∧
    executePipeline evalFn [] input =
      { output := input, errors := [], failedStep := none } := by
  have happ := executePipeline_append_of_runOk evalFn steps [] input v h
  rw [List.append_nil] at happ
  have hfold := runOk_eq_foldl evalFn steps input v h
  refine ⟨?_, rfl⟩
  rw [happ, ← hfold]
  rfl

/-- Witness for C2 at a concrete pipeline: a successful step, a muted
step (excluded), and another successful step. -/
theorem executePipeline_success_is_fold_witness :
    executePipeline sampleEval (csA :: csMuted :: [csB]) "hi" =
      { output := ([csA, csMuted, csB].filter (fun step => !step.muted)).foldl
          (stepTransform sampleEval) "hi",
        errors := [], failedStep := none } :=
  (executePipeline_success_is_fold sampleEval [csA, csMuted, csB] "hi" "hi!!"
    (by decide)).1

/-- C9: a non-muted step whose evaluator returns `null` sets the running
value to the empty string, exactly as `undefined` does (both nullish
results coerce to `""` through `String(result ?? '')`), and any other
returned value becomes its `String(·)` representation. -/
theorem executePipeline_nullish_coercion
    (evalFn : StepEval) (step : Step) (input : String)
    (hmut : step.muted = false) :
    (evalFn step input = .ok .nullV →
      executePipeline evalFn [step] input =
        { output := "", errors := [], failedStep := none }) ∧
    (evalFn step input = .ok .undefinedV →
      executePipeline evalFn [step] input =
        { output := "", errors := [], failedStep := none }) ∧
    (∀ s, evalFn step input = .ok (.value s) →
      executePipeline evalFn [step] input =
        { output := jsString (.value s), errors := [], failedStep := none }) ∧
    coerceResult .nullV = coerceResult .undefinedV := by
  refine ⟨?_, ?_, ?_, rfl⟩
  · intro hev
    simp [executePipeline, hmut, hev, coerceResult, nullishCoalesce, jsString]
  · intro hev
    simp [executePipeline, hmut, hev, coerceResult, nullishCoalesce, jsString]
  · intro s hev
    simp [executePipeline, hmut, hev, coerceResult, nullishCoalesce, jsString]

/-- Witness for C9 at a concrete step returning `null`. -/
theorem executePipeline_nullish_coercion_witness :
    executePipeline sampleEval [csNull] "payload" =
      { output := "", errors := [], failedStep := none } :=
  (executePipeline_nullish_coercion sampleEval csNull "payload" (by decide)).1
    (by decide)

/-- Counterexample to C3 as stated: the anchor id `""` is present in the
list (`findIdx?` locates it at index 1), yet `resolveScopeSteps` with
scope `'from'` returns the whole list instead of the subsequence from
the anchor, because the source's `if (!anchor)` check treats the empty
string as a missing anchor. -/
theorem resolveScopeSteps_empty_anchor_counterexample :
    cexScopeList.findIdx? (fun step => step.id == "") = some 1 ∧
    resolveScopeSteps .fromScope (some "") cexScopeList = cexScopeList ∧
    cexScopeList ≠ cexScopeList.drop 1 := by
  decide

/-- C3 as amended: `'all'` returns the whole list; for `'from'` and
`'to'` a `null`, empty-string, or not-present anchor returns the whole
list (identical fallback for both scopes); a present non-empty anchor
found at index `idx` yields the contiguous subsequence from the anchor
through the end for `'from'` and from the start through the anchor for
`'to'`, the two slices reassembling the whole list around the anchor
element. -/
theorem resolveScopeSteps_resolution (steps : List Step) :
    (∀ anchorId, resolveScopeSteps .all anchorId steps = steps) ∧
    (∀ scope, resolveScopeSteps scope none steps = steps) ∧
    (∀ scope, resolveScopeSteps scope (some "") steps = steps) ∧
    (∀ scope anchor, (∀ step ∈ steps, step.id ≠ anchor) →
      resolveScopeSteps scope (some anchor) steps = steps) ∧
    (∀ anchor idx, anchor ≠ "" →
      steps.findIdx? (fun step => step.id == anchor) = some idx →
      resolveScopeSteps .fromScope (some anchor) steps = steps.drop idx ∧
      resolveScopeSteps .toScope (some anchor) steps = steps.take (idx + 1) ∧
      (steps.drop idx).head?.map Step.id = some anchor ∧
      steps.take idx ++ steps.drop idx = steps) := by
  refine ⟨?_, ?_, ?_, ?_, ?_⟩
  · intro anchorId; simp [resolveScopeSteps]
  · intro scope; cases scope <;> simp [resolveScopeSteps]
  · intro scope; cases scope <;> simp [resolveScopeSteps]
  · intro scope anchor hnone
    have hfind : steps.findIdx? (fun step => step.id == anchor) = none := by
      simp only [List.findIdx?_eq_none_iff]
      intro step hstep
      simp [hnone step hstep]
    cases scope <;> simp [resolveScopeSteps, hfind]
  · intro anchor idx hne hfind
    obtain ⟨hlt, hp, -⟩ := List.findIdx?_eq_some_iff_getElem.mp hfind
    refine ⟨?_, ?_, ?_, List.take_append_drop idx steps⟩
    · simp [resolveScopeSteps, hne, hfind]
    · simp [resolveScopeSteps, hne, hfind]
    · rw [List.head?_drop, List.getElem?_eq_getElem hlt]
      simpa using hp

/-- Witness for the amended C3 at concrete inputs: a present non-empty
anchor slices, an absent anchor falls back to the whole list. -/
theorem resolveScopeSteps_resolution_witness :
    resolveScopeSteps .fromScope (some "fail") [csA, csFail, csB] = [csFail, csB] ∧
    resolveScopeSteps .toScope (some "zzz") [csA, csB] = [csA, csB] :=
  ⟨((resolveScopeSteps_resolution [csA, csFail, csB]).2.2.2.2 "fail" 1
      (by decide) (by decide)).1,
   (resolveScopeSteps_resolution [csA, csB]).2.2.2.1 .toScope "zzz" (by decide)⟩

/-- Removing the element at a valid index and re-consing it in front is a
permutation of the original list. -/
theorem cons_getElem_eraseIdx_perm {α : Type} (xs : List α) :
    ∀ (n : Nat) (h : n < xs.length), (xs[n] :: xs.eraseIdx n).Perm xs := by
  induction xs with
  | nil => intro n h; simp at h
  | cons x t ih =>
    intro n h
    cases n with
    | zero => simp
    | succ n =>
      have h' : n < t.length := by simpa using h
      have hswap : (t[n] :: x :: t.eraseIdx n).Perm (x :: t[n] :: t.eraseIdx n) :=
        List.Perm.swap x t[n] (t.eraseIdx n)
      have hcons : (x :: t[n] :: t.eraseIdx n).Perm (x :: t) := (ih n h').cons x
      simpa using hswap.trans hcons

/-- Re-inserting the removed element at its own index restores the list. -/
theorem insertIdx_getElem_eraseIdx_self {α : Type} (xs : List α) :
    ∀ (n : Nat) (h : n < xs.length), (xs.eraseIdx n).insertIdx n xs[n] = xs := by
  induction xs with
  | nil => intro n h; simp at h
  | cons x t ih =>
    intro n h
    cases n with
    | zero => simp
    | succ n =>
      have h' : n < t.length := by simpa using h
      simp [ih n h']

/-- On in-range indices `moveItem` is "splice out at `n`, splice in at
`m`". -/
theorem moveItem_in_range {α : Type} (xs : List α) (n m : Nat)
    (hn : n < xs.length) (hm : m < xs.length) :
    moveItem xs (n : Int) (m : Int) = (xs.eraseIdx n).insertIdx m xs[n] := by
  have hguard : ¬(((n : Int) < 0) ∨ ((n : Int) ≥ (xs.length : Int)) ∨
      ((m : Int) < 0) ∨ ((m : Int) ≥ (xs.length : Int))) := by
    omega
  simp only [moveItem, if_neg hguard, Int.toNat_natCast,
    List.getElem?_eq_getElem hn]

/-- The destination index stays within the shortened list. -/
theorem le_length_eraseIdx_of_lt {α : Type} (xs : List α) (n m : Nat)
    (hn : n < xs.length) (hm : m < xs.length) : m ≤ (xs.eraseIdx n).length := by
  have := List.length_eraseIdx_add_one hn
  omega

/-- Lemma: `moveItem` on in-range indices permutes the list. -/
theorem moveItem_perm {α : Type} (xs : List α) (n m : Nat)
    (hn : n < xs.length) (hm : m < xs.length) :
    (moveItem xs (n : Int) (m : Int)).Perm xs := by
  rw [moveItem_in_range xs n m hn hm]
  exact (List.perm_insertIdx xs[n] _ (le_length_eraseIdx_of_lt xs n m hn hm)).trans
    (cons_getElem_eraseIdx_perm xs n hn)

/-- Lemma: `moveItem` places the moved element at the destination index. -/
theorem moveItem_getElem_dest {α : Type} (xs : List α) (n m : Nat)
    (hn : n < xs.length) (hm : m < xs.length) :
    (moveItem xs (n : Int) (m : Int))[m]? = xs[n]? := by
  have hle := le_length_eraseIdx_of_lt xs n m hn hm
  rw [moveItem_in_range xs n m hn hm]
  have hlen : m < ((xs.eraseIdx n).insertIdx m xs[n]).length := by
    rw [List.length_insertIdx m _ hle]
    omega
  rw [List.getElem?_eq_getElem hlen, List.getElem?_eq_getElem hn]
  exact congrArg some (List.getElem_insertIdx_self _ _ _ hle)

/-- Moving an element onto its own index is the identity. -/
theorem moveItem_self {α : Type} (xs : List α) (n : Nat) (hn : n < xs.length) :
    moveItem xs (n : Int) (n : Int) = xs := by
  rw [moveItem_in_range xs n n hn hn, insertIdx_getElem_eraseIdx_self xs n hn]

/-- Lemma: `moveItem` with an out-of-range index returns the list unchanged. -/
theorem moveItem_out_of_range {α : Type} (xs : List α) (fromIndex toIndex : Int)
    (h : fromIndex < 0 ∨ (xs.length : Int) ≤ fromIndex ∨
      toIndex < 0 ∨ (xs.length : Int) ≤ toIndex) :
    moveItem xs fromIndex toIndex = xs := by
  simp only [moveItem]
  rw [if_pos h]

/-- C4: `moveStep` and `moveLibraryStep` with any out-of-range index
(negative or `≥ length` on either side) return the input sequence
unchanged (total, no exception); with in-range indices they relocate the
element at `fromIndex` to position `toIndex`, preserving length. -/
theorem moveStep_out_of_range_noop :
    (∀ (steps : List Step) (fromIndex toIndex : Int),
      (fromIndex < 0 ∨ (steps.length : Int) ≤ fromIndex ∨
        toIndex < 0 ∨ (steps.length : Int) ≤ toIndex) →
      moveStep steps fromIndex toIndex = steps) ∧
    (∀ (librarySteps : List LibraryStep) (fromIndex toIndex : Int),
      (fromIndex < 0 ∨ (librarySteps.length : Int) ≤ fromIndex ∨
        toIndex < 0 ∨ (librarySteps.length : Int) ≤ toIndex) →
      moveLibraryStep librarySteps fromIndex toIndex = librarySteps) ∧
    (∀ (steps : List Step) (n m : Nat), n < steps.length → m < steps.length →
      (moveStep steps (n : Int) (m : Int)).length = steps.length ∧
      (moveStep steps (n : Int) (m : Int))[m]? = steps[n]?) ∧
    (∀ (librarySteps : List LibraryStep) (n m : Nat),
      n < librarySteps.length → m < librarySteps.length →
      (moveLibraryStep librarySteps (n : Int) (m : Int)).length = librarySteps.length ∧
      (moveLibraryStep librarySteps (n : Int) (m : Int))[m]? = librarySteps[n]?) := by
  refine ⟨?_, ?_, ?_, ?_⟩
  · intro steps f t h; exact moveItem_out_of_range steps f t h
  · intro librarySteps f t h; exact moveItem_out_of_range librarySteps f t h
  · intro steps n m hn hm
    exact ⟨(moveItem_perm steps n m hn hm).length_eq,
      moveItem_getElem_dest steps n m hn hm⟩
  · intro librarySteps n m hn hm
    exact ⟨(moveItem_perm librarySteps n m hn hm).length_eq,
      moveItem_getElem_dest librarySteps n m hn hm⟩

/-- Witness for C4: an out-of-range move is a no-op, an in-range move
relocates the element. -/
theorem moveStep_out_of_range_noop_witness :
    moveStep [csA, csB] 5 0 = [csA, csB] ∧
    (moveStep [csA, csFail, csB] 0 2)[(2 : Nat)]? = some csA :=
  ⟨moveStep_out_of_range_noop.1 [csA, csB] 5 0 (by decide),
   ((moveStep_out_of_range_noop.2.2.1 [csA, csFail, csB] 0 2
      (by decide) (by decide)).2).trans (by decide)⟩

/-- C8: on in-range indices the moved sequence is a permutation of the
input (exactly the same elements, every field unchanged), its length is
the input's, and moving an element onto its own index returns a sequence
equal to the input; the same holds for the library list. -/
theorem moveStep_permutation :
    (∀ (steps : List Step) (n m : Nat), n < steps.length → m < steps.length →
      (moveStep steps (n : Int) (m : Int)).Perm steps ∧
      (moveStep steps (n : Int) (m : Int)).length = steps.length ∧
      (n = m → moveStep steps (n : Int) (m : Int) = steps)) ∧
    (∀ (librarySteps : List LibraryStep) (n m : Nat),
      n < librarySteps.length → m < librarySteps.length →
      (moveLibraryStep librarySteps (n : Int) (m : Int)).Perm librarySteps ∧
      (moveLibraryStep librarySteps (n : Int) (m : Int)).length = librarySteps.length ∧
      (n = m → moveLibraryStep librarySteps (n : Int) (m : Int) = librarySteps)) := by
  constructor
  · intro steps n m hn hm
    refine ⟨moveItem_perm steps n m hn hm, (moveItem_perm steps n m hn hm).length_eq, ?_⟩
    rintro rfl
    exact moveItem_self steps n hn
  · intro librarySteps n m hn hm
    refine ⟨moveItem_perm librarySteps n m hn hm,
      (moveItem_perm librarySteps n m hn hm).length_eq, ?_⟩
    rintro rfl
    exact moveItem_self librarySteps n hn

/-- Witness for C8: a concrete in-range move is a permutation, and a
self-move is the identity. -/
theorem moveStep_permutation_witness :
    (moveStep [csA, csFail, csB] 2 0).Perm [csA, csFail, csB] ∧
    moveStep [csA, csB] 1 1 = [csA, csB] :=
  ⟨(moveStep_permutation.1 [csA, csFail, csB] 2 0 (by decide) (by decide)).1,
   (moveStep_permutation.1 [csA, csB] 1 1 (by decide) (by decide)).2.2 rfl⟩

/-- C7: `saveStepToLibrary` with an explicit step appends a new library
step copying that step's title and code; with no argument it saves the
currently selected step; it leaves the library unchanged only when
neither an argument is given nor a step is selected. -/
theorem saveStepToLibrary_spec :
    (∀ (step : Step) (selectedStep : Option Step) (librarySteps : List LibraryStep)
        (newId : String) (now : Nat),
      saveStepToLibrary (some step) selectedStep librarySteps newId now =
        librarySteps ++
          [{ id := newId, title := step.title, code := step.code,
             createdAt := now, updatedAt := now }]) ∧
    (∀ (librarySteps : List LibraryStep) (newId : String) (now : Nat),
      saveStepToLibrary none none librarySteps newId now = librarySteps) ∧
    (∀ (selected : Step) (librarySteps : List LibraryStep) (newId : String) (now : Nat),
      saveStepToLibrary none (some selected) librarySteps newId now =
        librarySteps ++
          [{ id := newId, title := selected.title, code := selected.code,
             createdAt := now, updatedAt := now }]) ∧
    (∀ (stepToSave selectedStep : Option Step) (librarySteps : List LibraryStep)
        (newId : String) (now : Nat),
      saveStepToLibrary stepToSave selectedStep librarySteps newId now = librarySteps →
      stepToSave = none ∧ selectedStep = none) := by
  refine ⟨?_, ?_, ?_, ?_⟩
  · intro step selectedStep librarySteps newId now
    simp [saveStepToLibrary, createLibraryStep, Option.orElse]
  · intro librarySteps newId now
    simp [saveStepToLibrary, Option.orElse]
  · intro selected librarySteps newId now
    simp [saveStepToLibrary, createLibraryStep, Option.orElse]
  · intro stepToSave selectedStep librarySteps newId now h
    cases stepToSave with
    | some step =>
      exfalso
      simp only [saveStepToLibrary, Option.orElse] at h
      have := congrArg List.length h
      simp at this
    | none =>
      cases selectedStep with
      | some selected =>
        exfalso
        simp only [saveStepToLibrary, Option.orElse] at h
        have := congrArg List.length h
        simp at this
      | none => exact ⟨rfl, rfl⟩

/-- Witness for C7 at concrete inputs: an explicit step is appended; with
nothing to save the library is untouched. -/
theorem saveStepToLibrary_spec_witness :
    saveStepToLibrary (some csA) none [] "L9" 5 =
      [{ id := "L9", title := csA.title, code := csA.code,
         createdAt := 5, updatedAt := 5 }] ∧
    saveStepToLibrary none none [] "L9" 5 = [] :=
  ⟨saveStepToLibrary_spec.1 csA none [] "L9" 5,
   saveStepToLibrary_spec.2.1 [] "L9" 5⟩

/-- C10: after `deleteLibraryStep id`, the library holds no step with
that id, every other step survives verbatim in its original order, and
the library selection never references the deleted id: it is cleared when
it pointed at the deleted step and unchanged otherwise. -/
theorem deleteLibraryStep_spec (id : String) (librarySteps : List LibraryStep)
    (selected : Option String) :
    (∀ step ∈ (deleteLibraryStep id librarySteps selected).1, step.id ≠ id) ∧
    (deleteLibraryStep id librarySteps selected).1.Sublist librarySteps ∧
    (∀ step ∈ librarySteps, step.id ≠ id →
      step ∈ (deleteLibraryStep id librarySteps selected).1) ∧
    (selected = some id → (deleteLibraryStep id librarySteps selected).2 = none) ∧
    (selected ≠ some id → (deleteLibraryStep id librarySteps selected).2 = selected) ∧
    (deleteLibraryStep id librarySteps selected).2 ≠ some id := by
  refine ⟨?_, ?_, ?_, ?_, ?_, ?_⟩
  · intro step hstep
    have := List.of_mem_filter hstep
    simpa using this
  · exact List.filter_sublist librarySteps
  · intro step hstep hne
    exact List.mem_filter.mpr ⟨hstep, by simpa using hne⟩
  · intro hsel
    simp [deleteLibraryStep, hsel]
  · intro hsel
    simp [deleteLibraryStep, hsel]
  · by_cases hsel : selected = some id <;> simp [deleteLibraryStep, hsel]

/-- Witness for C10 at a concrete library and selection. -/
theorem deleteLibraryStep_spec_witness :
    (deleteLibraryStep "L1" [⟨"L1", "a", "c", 0, 0⟩, ⟨"L2", "b", "d", 0, 0⟩]
        (some "L1")).2 = none :=
  (deleteLibraryStep_spec "L1" [⟨"L1", "a", "c", 0, 0⟩, ⟨"L2", "b", "d", 0, 0⟩]
      (some "L1")).2.2.2.1 rfl

/-- Counterexample to C5 as stated: a state holding a freshly created
group (which `createGroup` mints without an `inputText` key) does not
round-trip to an equal state, because `loadStoredState` rewrites the
group's missing `inputText` to `''`. -/
theorem loadStoredState_roundtrip_counterexample :
    loadStoredState (some (saveStoredState cexStateNoInput)) ≠ cexStateNoInput ∧
    loadStoredState (some (saveStoredState cexStateNoInput)) =
      { cexStateNoInput with
        stepGroups := [{ cexGroupNoInput with inputText := some "" }] } := by
  decide

/-- C5 as amended: saving and reloading reproduces the library steps and
both selections exactly, and the step groups up to `inputText`
normalisation (a group's missing `inputText` reloads as `''`, so states
whose groups all carry an `inputText` round-trip to equal states); a
payload whose `version` differs from 1, or whose top level is falsy,
absent or unparsable, loads as the canonical empty state; nested
non-array `stepGroups`/`librarySteps` are coerced to empty arrays without
rejecting the envelope. -/
theorem storedState_roundtrip (state : StoredState)
    (hv : state.version = STORAGE_VERSION) :
    loadStoredState (some (saveStoredState state)) =
      { state with
        stepGroups := state.stepGroups.map
          (fun group => { group with inputText := some (group.inputText.getD "") }) } ∧
    ((∀ group ∈ state.stepGroups, group.inputText ≠ none) →
      loadStoredState (some (saveStoredState state)) = state) ∧
    (loadStoredState (some (saveStoredState state))).librarySteps = state.librarySteps ∧
    (loadStoredState (some (saveStoredState state))).selectedGroupId = state.selectedGroupId ∧
    (loadStoredState (some (saveStoredState state))).selectedStepId = state.selectedStepId ∧
    (∀ raw : RawStored, raw.version ≠ some STORAGE_VERSION →
      loadStoredState (some (.obj raw)) = emptyStoredState) ∧
    loadStoredState (some .falsy) = emptyStoredState ∧
    loadStoredState none = emptyStoredState ∧
    (∀ (v : Option Int) (sel1 sel2 : Option String),
      loadStoredState (some (.obj
        { version := v, stepGroups := none, selectedGroupId := sel1,
          selectedStepId := sel2, librarySteps := none })) =
        if v = some STORAGE_VERSION then
          { version := STORAGE_VERSION, stepGroups := [], selectedGroupId := sel1,
            selectedStepId := sel2, librarySteps := [] }
        else emptyStoredState) := by
  have hmain : loadStoredState (some (saveStoredState state)) =
      { state with
        stepGroups := state.stepGroups.map
          (fun group => { group with inputText := some (group.inputText.getD "") }) } := by
    cases state with
    | mk version stepGroups selectedGroupId selectedStepId librarySteps =>
      simp only at hv
      simp [loadStoredState, saveStoredState, hv]
  refine ⟨hmain, ?_, ?_, ?_, ?_, ?_, rfl, rfl, ?_⟩
  · intro hall
    rw [hmain]
    have hmap : state.stepGroups.map
        (fun group => { group with inputText := some (group.inputText.getD "") }) =
        state.stepGroups := by
      rw [show state.stepGroups = state.stepGroups.map id by simp]
      rw [List.map_map]
      apply List.map_congr_left
      intro group hgroup
      obtain ⟨text, htext⟩ := Option.ne_none_iff_exists'.mp (hall group (by simpa using hgroup))
      cases group
      simp_all
    rw [hmap]
  · rw [hmain]
  · rw [hmain]
  · rw [hmain]
  · intro raw hraw
    simp [loadStoredState, hraw]
  · intro v sel1 sel2
    by_cases hveq : v = some STORAGE_VERSION <;> simp [loadStoredState, hveq]

/-- Lemma: `moveItem` permutes the list for arbitrary integer indices (identity
when out of range). -/
theorem moveItem_perm_int {α : Type} (xs : List α) (f t : Int) :
    (moveItem xs f t).Perm xs := by
  by_cases h : f < 0 ∨ (xs.length : Int) ≤ f ∨ t < 0 ∨ (xs.length : Int) ≤ t
  · rw [moveItem_out_of_range xs f t h]
  · push_neg at h
    obtain ⟨h1, h2, h3, h4⟩ := h
    have hf : f = ((f.toNat : Nat) : Int) := (Int.toNat_of_nonneg h1).symm
    have ht : t = ((t.toNat : Nat) : Int) := (Int.toNat_of_nonneg h3).symm
    rw [hf, ht]
    exact moveItem_perm xs f.toNat t.toNat (by omega) (by omega)

/-- Step stampedness is monotone in the clock. -/
theorem stepStamped_mono {t u : Nat} (h : t ≤ u) {step : Step}
    (hs : stepStamped t step) : stepStamped u step :=
  ⟨hs.1, hs.2.trans h⟩

/-- Group stampedness is monotone in the clock. -/
theorem groupStamped_mono {t u : Nat} (h : t ≤ u) {group : StepGroup}
    (hg : groupStamped t group) : groupStamped u group :=
  ⟨hg.1, hg.2.1.trans h, fun step hstep => stepStamped_mono h (hg.2.2 step hstep)⟩

/-- Library-step stampedness is monotone in the clock. -/
theorem libraryStepStamped_mono {t u : Nat} (h : t ≤ u) {step : LibraryStep}
    (hs : libraryStepStamped t step) : libraryStepStamped u step :=
  ⟨hs.1, hs.2.trans h⟩

/-- Store stampedness is monotone in the clock. -/
theorem stateStamped_mono {t u : Nat} (h : t ≤ u) {state : AppState}
    (hs : stateStamped t state) : stateStamped u state :=
  ⟨fun group hg => groupStamped_mono h (hs.1 group hg),
   fun step hstep => libraryStepStamped_mono h (hs.2 step hstep)⟩

/-- A freshly minted step is stamped `createdAt = updatedAt = now`. -/
theorem stepStamped_createStep (index : Nat) (newId : String) (t : Nat) :
    stepStamped t (createStep index newId t) :=
  ⟨le_rfl, le_rfl⟩

/-- A freshly minted group is stamped `createdAt = updatedAt = now`. -/
theorem groupStamped_createGroup (index : Nat) (newId : String) (t : Nat) :
    groupStamped t (createGroup index newId t) :=
  ⟨le_rfl, le_rfl, by intro step hstep; simp [createGroup] at hstep⟩

/-- A freshly minted library step is stamped `createdAt = updatedAt = now`. -/
theorem libraryStepStamped_createLibraryStep (index : Nat) (seed : Option Step)
    (newId : String) (t : Nat) :
    libraryStepStamped t (createLibraryStep index seed newId t) :=
  ⟨le_rfl, le_rfl⟩

/-- Spreading updates over a stamped step re-stamps `updatedAt = now`
and keeps it stamped. -/
theorem stepStamped_applyStepUpdates {t : Nat} {step : Step} (updates : StepUpdates)
    (h : stepStamped t step) : stepStamped t (applyStepUpdates updates t step) :=
  ⟨h.1.trans h.2, le_rfl⟩

/-- Spreading updates over a stamped library step keeps it stamped. -/
theorem libraryStepStamped_applyLibraryStepUpdates {t : Nat} {step : LibraryStep}
    (updates : LibraryStepUpdates) (h : libraryStepStamped t step) :
    libraryStepStamped t (applyLibraryStepUpdates updates t step) :=
  ⟨h.1.trans h.2, le_rfl⟩

/-- Lemma: `updateActiveSteps` keeps the store stamped whenever the step-list
updater preserves step stampedness. -/
theorem updateActiveSteps_stamped {t : Nat} {state : AppState}
    {updater : List Step → List Step}
    (hupd : ∀ steps, (∀ s ∈ steps, stepStamped t s) →
      ∀ s ∈ updater steps, stepStamped t s)
    (h : stateStamped t state) : stateStamped t (updateActiveSteps state t updater) := by
  unfold updateActiveSteps
  split
  · exact h
  · next activeGroup hfind =>
    refine ⟨?_, h.2⟩
    intro group hgroup
    simp only [List.mem_map] at hgroup
    obtain ⟨g0, hg0, rfl⟩ := hgroup
    have hg0s := h.1 g0 hg0
    by_cases heq : (g0.id == activeGroup.id) = true
    · simp only [heq, if_true]
      exact ⟨hg0s.1.trans hg0s.2.1, le_rfl,
        hupd g0.steps (fun s hs => hg0s.2.2 s hs)⟩
    · simp only [heq, if_false]
      exact hg0s

/-- One entity-store operation applied at its clock reading keeps every
entity stamped. -/
theorem applyOp_stamped (t : Nat) (op : StoreOp) (state : AppState)
    (h : stateStamped t state) : stateStamped t (applyOp t op state) := by
  cases op with
  | addGroup newId =>
    refine ⟨?_, h.2⟩
    intro group hgroup
    rcases List.mem_append.mp hgroup with hold | hnew
    · exact h.1 group hold
    · rw [List.mem_singleton.mp hnew]
      exact groupStamped_createGroup _ _ _
  | updateGroupTitle id title =>
    refine ⟨?_, h.2⟩
    intro group hgroup
    simp only [applyOp, List.mem_map] at hgroup
    obtain ⟨g0, hg0, rfl⟩ := hgroup
    have hg0s := h.1 g0 hg0
    by_cases heq : (g0.id == id) = true
    · simp only [heq, if_true]
      exact ⟨hg0s.1.trans hg0s.2.1, le_rfl, hg0s.2.2⟩
    · simp only [heq, if_false]
      exact hg0s
  | updateGroupInputText id text =>
    refine ⟨?_, h.2⟩
    intro group hgroup
    simp only [applyOp, List.mem_map] at hgroup
    obtain ⟨g0, hg0, rfl⟩ := hgroup
    have hg0s := h.1 g0 hg0
    by_cases heq : (g0.id == id) = true
    · simp only [heq, if_true]
      exact ⟨hg0s.1.trans hg0s.2.1, le_rfl, hg0s.2.2⟩
    · simp only [heq, if_false]
      exact hg0s
  | deleteGroup id =>
    exact ⟨fun group hgroup => h.1 group (List.mem_of_mem_filter hgroup), h.2⟩
  | addStep newId =>
    show stateStamped t (match state.stepGroups.find?
        (fun group => some group.id == state.selectedGroupId) with
      | none => state
      | some _ => _)
    split
    · exact h
    · exact updateActiveSteps_stamped
        (fun steps hsteps s hs => by
          rcases List.mem_append.mp hs with hold | hnew
          · exact hsteps s hold
          · rw [List.mem_singleton.mp hnew]
            exact stepStamped_createStep _ _ _)
        h
  | updateStep id updates =>
    exact updateActiveSteps_stamped
      (fun steps hsteps s hs => by
        simp only [List.mem_map] at hs
        obtain ⟨s0, hs0, rfl⟩ := hs
        by_cases heq : (s0.id == id) = true
        · simp only [heq, if_true]
          exact stepStamped_applyStepUpdates updates (hsteps s0 hs0)
        · simp only [heq, if_false]
          exact hsteps s0 hs0)
      h
  | deleteStep id =>
    exact updateActiveSteps_stamped
      (fun steps hsteps s hs => hsteps s (List.mem_of_mem_filter hs))
      h
  | moveStepOp fromIndex toIndex =>
    exact updateActiveSteps_stamped
      (fun steps hsteps s hs =>
        hsteps s ((moveItem_perm_int steps fromIndex toIndex).mem_iff.mp hs))
      h
  | addLibraryStep newId =>
    refine ⟨h.1, ?_⟩
    intro step hstep
    rcases List.mem_append.mp hstep with hold | hnew
    · exact h.2 step hold
    · rw [List.mem_singleton.mp hnew]
      exact libraryStepStamped_createLibraryStep _ _ _ _
  | updateLibraryStep id updates =>
    refine ⟨h.1, ?_⟩
    intro step hstep
    simp only [applyOp, List.mem_map] at hstep
    obtain ⟨s0, hs0, rfl⟩ := hstep
    by_cases heq : (s0.id == id) = true
    · simp only [heq, if_true]
      exact libraryStepStamped_applyLibraryStepUpdates updates (h.2 s0 hs0)
    · simp only [heq, if_false]
      exact h.2 s0 hs0
  | deleteLibraryStepOp id =>
    exact ⟨h.1, fun step hstep => h.2 step (List.mem_of_mem_filter hstep)⟩
  | moveLibraryStepOp fromIndex toIndex =>
    exact ⟨h.1, fun step hstep =>
      h.2 step ((moveItem_perm_int state.librarySteps fromIndex toIndex).mem_iff.mp hstep)⟩
  | saveStepToLibraryOp stepToSave newId =>
    cases stepToSave with
    | none => exact h
    | some step =>
      refine ⟨h.1, ?_⟩
      intro s hs
      rcases List.mem_append.mp hs with hold | hnew
      · exact h.2 s hold
      · rw [List.mem_singleton.mp hnew]
        exact libraryStepStamped_createLibraryStep _ _ _ _
  | addStepFromLibrary libStep atIndex newId =>
    show stateStamped t (match state.stepGroups.find?
        (fun group => some group.id == state.selectedGroupId) with
      | none => state
      | some _ => _)
    split
    · exact h
    · refine updateActiveSteps_stamped (fun steps hsteps s hs => ?_) h
      cases atIndex with
      | some index =>
        simp only at hs
        rcases (List.mem_insertIdx (Nat.min_le_right index steps.length)).mp hs with
          hnew | hold
        · rw [hnew]; exact ⟨le_rfl, le_rfl⟩
        · exact hsteps s hold
      | none =>
        rcases List.mem_append.mp hs with hold | hnew
        · exact hsteps s hold
        · rw [List.mem_singleton.mp hnew]
          exact ⟨le_rfl, le_rfl⟩

/-- Running a monotonically timestamped operation sequence keeps every
entity stamped up to the final clock reading. -/
theorem runOps_stamped : ∀ (ops : List (Nat × StoreOp)) (t0 : Nat) (state : AppState),
    timesMono t0 ops → stateStamped t0 state →
    stateStamped (endTime t0 ops) (runOps ops state)
  | [], _, _, _, h => h
  | (t, op) :: rest, _, state, hmono, h =>
    runOps_stamped rest t (applyOp t op state) hmono.2
      (applyOp_stamped t op state (stateStamped_mono hmono.1 h))

/-- C6: starting from a store whose entities are well-stamped (in
particular the empty store) and running any sequence of entity-store
operations at non-decreasing `Date.now()` readings, every step, group and
library step satisfies `createdAt ≤ updatedAt ≤ clock`; moreover
`updateStep` stamps `updatedAt = now` on every step it mutates and on the
owning (selected) group, `updateLibraryStep` stamps the mutated library
step, and `updateGroupTitle`/`updateGroupInputText` stamp the mutated
group. -/
theorem entityStore_updatedAt_invariant :
    (∀ (ops : List (Nat × StoreOp)) (t0 : Nat) (state0 : AppState),
      timesMono t0 ops → stateStamped t0 state0 →
      stateStamped (endTime t0 ops) (runOps ops state0)) ∧
    (∀ (state : AppState) (t : Nat) (id : String) (updates : StepUpdates),
      ∀ group ∈ (applyOp t (.updateStep id updates) state).stepGroups,
        some group.id = state.selectedGroupId →
        group.updatedAt = t ∧
        ∀ step ∈ group.steps, step.id = id → step.updatedAt = t) ∧
    (∀ (state : AppState) (t : Nat) (id : String) (updates : LibraryStepUpdates),
      ∀ step ∈ (applyOp t (.updateLibraryStep id updates) state).librarySteps,
        step.id = id → step.updatedAt = t) ∧
    (∀ (state : AppState) (t : Nat) (id : String) (title : String),
      ∀ group ∈ (applyOp t (.updateGroupTitle id title) state).stepGroups,
        group.id = id → group.updatedAt = t ∧ group.title = title) ∧
    (∀ (state : AppState) (t : Nat) (id : String) (text : String),
      ∀ group ∈ (applyOp t (.updateGroupInputText id text) state).stepGroups,
        group.id = id → group.updatedAt = t ∧ group.inputText = some text) := by
  refine ⟨runOps_stamped, ?_, ?_, ?_, ?_⟩
  · intro state t id updates
    show ∀ group ∈ (updateActiveSteps state t _).stepGroups, _
    unfold updateActiveSteps
    split
    · next hfind =>
      intro group hgroup hsel
      exfalso
      have hnp := List.find?_eq_none.mp hfind group hgroup
      simp [hsel] at hnp
    · next activeGroup hfind =>
      intro group hgroup hsel
      simp only [List.mem_map] at hgroup
      obtain ⟨g0, hg0, rfl⟩ := hgroup
      have hact := List.find?_some hfind
      simp only [beq_iff_eq] at hact
      by_cases heq : (g0.id == activeGroup.id) = true
      · rw [if_pos heq]
        refine ⟨rfl, ?_⟩
        intro step hstep hid
        simp only [List.mem_map] at hstep
        obtain ⟨s0, hs0, rfl⟩ := hstep
        by_cases hsid : (s0.id == id) = true
        · rw [if_pos hsid]
          rfl
        · rw [if_neg hsid] at hid ⊢
          exact absurd hid (by simpa using hsid)
      · rw [if_neg heq] at hsel
        exfalso
        apply heq
        have hsome : some g0.id = some activeGroup.id := hsel.trans hact.symm
        simp [Option.some.inj hsome]
  · intro state t id updates step hstep hid
    simp only [applyOp, List.mem_map] at hstep
    obtain ⟨s0, hs0, rfl⟩ := hstep
    by_cases hseq : (s0.id == id) = true
    · rw [if_pos hseq]
      rfl
    · rw [if_neg hseq] at hid ⊢
      exact absurd hid (by simpa using hseq)
  · intro state t id title group hgroup hid
    simp only [applyOp, List.mem_map] at hgroup
    obtain ⟨g0, hg0, rfl⟩ := hgroup
    by_cases heq : (g0.id == id) = true
    · rw [if_pos heq]
      exact ⟨rfl, rfl⟩
    · rw [if_neg heq] at hid ⊢
      exact absurd hid (by simpa using heq)
  · intro state t id text group hgroup hid
    simp only [applyOp, List.mem_map] at hgroup
    obtain ⟨g0, hg0, rfl⟩ := hgroup
    by_cases heq : (g0.id == id) = true
    · rw [if_pos heq]
      exact ⟨rfl, rfl⟩
    · rw [if_neg heq] at hid ⊢
      exact absurd hid (by simpa using heq)

/-- Witness for C6 at a concrete operation sequence run from the empty
store. -/
theorem entityStore_updatedAt_invariant_witness :
    stateStamped (endTime 0 csOps) (runOps csOps emptyAppState) :=
  entityStore_updatedAt_invariant.1 csOps 0 emptyAppState (by decide) (by decide)

/-- Witness for C5 (amended) at a concrete state whose group carries an
`inputText`: the round trip is an exact equality, and a version-2 payload
reloads as the empty state. -/
theorem storedState_roundtrip_witness :
    loadStoredState (some (saveStoredState csStateWithInput)) = csStateWithInput ∧
    loadStoredState (some (.obj
      { version := some 2, stepGroups := some [csGroupWithInput],
        selectedGroupId := some "g2", selectedStepId := none,
        librarySteps := none })) = emptyStoredState :=
  ⟨(storedState_roundtrip csStateWithInput rfl).2.1 (by decide),
   (storedState_roundtrip csStateWithInput rfl).2.2.2.2.2.1
     { version := some 2, stepGroups := some [csGroupWithInput],
       selectedGroupId := some "g2", selectedStepId := none, librarySteps := none }
     (by decide)⟩

end CSL
